import Mathlib

/-!
Shallow embedding of the tangle parachain-staking pallet
(`src/pallets/parachain-staking/src/lib.rs`).

Accounts are `Nat`, balances are `Nat` (the source performs only saturating
u128 arithmetic, so no wraparound can occur and unbounded naturals with
truncated subtraction model `saturating_sub`/`saturating_add` exactly on all
reachable values), rounds are `Nat`.

`Perbill` values are represented by their parts (0 .. 10^9) and `Percent`
values by their parts (0 .. 100), as in `sp_arithmetic`.

Storage maps are modelled as association lists with first-match lookup;
`ainsert` overwrites in place or appends fresh keys at the end, matching the
overwrite semantics of substrate storage maps and of `BTreeMap::insert`.

Parts of the pallet crate that are not among the provided sources
(`types.rs`, `set.rs`, `delegation_requests.rs`, `auto_compound.rs`,
`inflation.rs`) are modelled from the specification; each such definition
carries a doc comment starting with `Modelled from the spec:`.
-/

namespace ParachainStaking

/-- Accuracy of `Perbill`: parts per billion. -/
def perbillAccuracy : Nat := 1000000000

/-- Perbill::from_rational: truncating rational conversion with the denominator
clamped to at least one and the result saturating at one
(`sp_arithmetic::PerThing::from_rational`). -/
def perbillFromRational (p q : Nat) : Nat :=
  min (p * perbillAccuracy / max q 1) perbillAccuracy

/-- Multiplication `Perbill * Balance`, truncating toward zero. -/
def perbillMul (parts x : Nat) : Nat :=
  parts * x / perbillAccuracy

/-- Multiplication `Percent * Balance`, truncating toward zero. -/
def percentMulFloor (pct x : Nat) : Nat :=
  pct * x / 100

/-- Percent::mul_ceil: multiplication rounding up. -/
def percentMulCeil (pct x : Nat) : Nat :=
  (pct * x + 99) / 100

/-- Association list lookup, first match wins. -/
def alookup {κ β : Type} [DecidableEq κ] : List (κ × β) → κ → Option β
  | [], _ => none
  | e :: rest, k => if e.1 = k then some e.2 else alookup rest k

/-- Association list insert: overwrite in place if the key is present,
append at the end otherwise. -/
def ainsert {κ β : Type} [DecidableEq κ] : List (κ × β) → κ → β → List (κ × β)
  | [], k, v => [(k, v)]
  | e :: rest, k, v => if e.1 = k then (k, v) :: rest else e :: ainsert rest k v

/-- Association list removal of every entry with the given key. -/
def aremove {κ β : Type} [DecidableEq κ] : List (κ × β) → κ → List (κ × β)
  | [], _ => []
  | e :: rest, k => if e.1 = k then aremove rest k else e :: aremove rest k

/-- Stable insertion used by `sortBy`: `x` is placed before the first element
`y` with `le x y`. -/
def insertBy {α : Type} (le : α → α → Bool) (x : α) : List α → List α
  | [] => [x]
  | y :: ys => if le x y then x :: y :: ys else y :: insertBy le x ys

/-- Stable insertion sort (models Rust's stable `sort_by` / `sort`). -/
def sortBy {α : Type} (le : α → α → Bool) (l : List α) : List α :=
  l.foldr (insertBy le) []

/-- Candidate or delegation bond: an owner together with a staked amount. -/
structure Bond where
  owner : Nat
  amount : Nat
deriving DecidableEq, Repr

/-- Snapshot delegation entry including the auto-compound percent. -/
structure BondWithAutoCompound where
  owner : Nat
  amount : Nat
  autoCompound : Nat
deriving DecidableEq, Repr

/-- Per-collator exposure snapshot (`CollatorSnapshot`). -/
structure CollatorSnapshot where
  bond : Nat
  delegations : List BondWithAutoCompound
  total : Nat
deriving DecidableEq, Repr

/-- Default snapshot, as produced by `ValueQuery` for a missing key. -/
def emptySnapshot : CollatorSnapshot := ⟨0, [], 0⟩

/-- Payout information recorded for a matured round (`DelayedPayout`).
`collatorCommission` is a Perbill. -/
structure DelayedPayout where
  roundIssuance : Nat
  totalStakingReward : Nat
  collatorCommission : Nat
deriving DecidableEq, Repr

/-- Delegator-initiated scheduled action (`DelegationAction`). -/
inductive DelegationAction
  | revoke (amount : Nat)
  | decrease (amount : Nat)
deriving DecidableEq, Repr

/-- Scheduled delegation request (`ScheduledRequest`). -/
structure ScheduledRequest where
  delegator : Nat
  whenExecutable : Nat
  action : DelegationAction
deriving DecidableEq, Repr

/-- Candidate status (`CollatorStatus`). -/
inductive CandidateStatus
  | active
  | idle
  | leaving (whenRound : Nat)
deriving DecidableEq, Repr

/-- Pending candidate self-bond decrease request. -/
structure CandidateBondLessRequest where
  amount : Nat
  whenExecutable : Nat
deriving DecidableEq, Repr

/-- Candidate metadata (`CandidateMetadata`): the fields used by the
embedded operations. -/
structure CandidateMetadata where
  bond : Nat
  delegationCount : Nat
  totalCounted : Nat
  request : Option CandidateBondLessRequest
  status : CandidateStatus
deriving DecidableEq, Repr

/-- A delegation bucket (`Delegations`): list of bonds plus their total. -/
structure Delegations where
  delegations : List Bond
  total : Nat
deriving DecidableEq, Repr

/-- Empty bucket: the `Default` value used for missing storage entries. -/
def emptyDelegations : Delegations := ⟨[], 0⟩

/-- Delegator status. -/
inductive DelegatorStatus
  | active
  | leaving (whenRound : Nat)
deriving DecidableEq, Repr

/-- Delegator portfolio state (`Delegator`). -/
structure Delegator where
  id : Nat
  delegations : List Bond
  total : Nat
  status : DelegatorStatus
deriving DecidableEq, Repr

/-- Round clock (`RoundInfo`). -/
structure RoundInfo where
  current : Nat
  first : Nat
  length : Nat
deriving DecidableEq, Repr

/-- A min/ideal/max band (`Range`). -/
structure StakeRange where
  low : Nat
  ideal : Nat
  high : Nat
deriving DecidableEq, Repr

/-- Inflation configuration (`InflationInfo`): expected-stake band plus
annual and per-round inflation rates (the latter two as Perbill parts). -/
structure InflationInfo where
  expect : StakeRange
  annual : StakeRange
  round : StakeRange
deriving DecidableEq, Repr

/-- Parachain bond configuration (`ParachainBondConfig`);
`percent` is a Percent. -/
structure ParachainBondConfig where
  account : Nat
  percent : Nat
deriving DecidableEq, Repr

/-- Observable events; the constructors mirror the pallet `Event` variants
emitted by the embedded operations. -/
inductive Event
  | newRound (startingBlock round selectedCollatorsNumber totalBalance : Nat)
  | joinedCollatorCandidates (account amountLocked newTotalAmtLocked : Nat)
  | collatorChosen (round collatorAccount totalExposedAmount : Nat)
  | candidateLeft (exCandidate unlockedAmount newTotalAmtLocked : Nat)
  | rewarded (account rewards : Nat)
  | reservedForParachainBond (account value : Nat)
  | compounded (candidate delegator amount : Nat)
  | delegationIncreased (delegator candidate amount : Nat) (inTop : Bool)
deriving DecidableEq, Repr

/-- Dispatch errors (`Error<T>`): the variants reachable in the embedded
operations. -/
inductive StakingError
  | candidateDNE
  | delegatorDNE
  | delegationDNE
  | candidateExists
  | delegatorExists
  | candidateBondBelowMin
  | insufficientBalance
  | tooLowCandidateCountWeightHintJoinCandidates
  | tooLowCandidateDelegationCountToLeaveCandidates
  | candidateNotLeaving
  | candidateCannotLeaveYet
  | pendingDelegationRevoke
deriving DecidableEq, Repr

/-- Compile-time configuration constants of the pallet (`Config`). -/
structure StakingConfig where
  rewardPaymentDelay : Nat
  leaveCandidatesDelay : Nat
  minSelectedCandidates : Nat
  maxTopDelegationsPerCandidate : Nat
  maxBottomDelegationsPerCandidate : Nat
  minCollatorStk : Nat
  minCandidateStk : Nat
  minDelegation : Nat
deriving DecidableEq, Repr

/-- The pallet storage plus the external ledger and the emitted event
stream. `ledger` maps existing accounts to their free balance. -/
structure GlobalState where
  ledger : List (Nat × Nat)
  collatorCommission : Nat
  totalSelected : Nat
  parachainBondInfo : ParachainBondConfig
  round : RoundInfo
  delegatorState : List (Nat × Delegator)
  candidateInfo : List (Nat × CandidateMetadata)
  delegationScheduledRequests : List (Nat × List ScheduledRequest)
  autoCompoundingDelegations : List (Nat × List (Nat × Nat))
  topDelegations : List (Nat × Delegations)
  bottomDelegations : List (Nat × Delegations)
  selectedCandidates : List Nat
  total : Nat
  candidatePool : List Bond
  atStake : List ((Nat × Nat) × CollatorSnapshot)
  delayedPayouts : List (Nat × DelayedPayout)
  staked : List (Nat × Nat)
  inflationConfig : InflationInfo
  points : List (Nat × Nat)
  awardedPts : List ((Nat × Nat) × Nat)
  collatorLocks : List (Nat × Nat)
  delegatorLocks : List (Nat × Nat)
  events : List Event
deriving DecidableEq, Repr

/-- Append an event to the state's event stream (`deposit_event`). -/
def emit (s : GlobalState) (e : Event) : GlobalState :=
  { s with events := s.events ++ [e] }

/-- Whether an account exists in the external ledger. -/
def ledgerHas (s : GlobalState) (a : Nat) : Bool :=
  (alookup s.ledger a).isSome

/-- The external ledger capability `deposit_into_existing` (spec section 6):
minting succeeds exactly for existing accounts and fails for dead ones. -/
def depositIntoExisting (l : List (Nat × Nat)) (acct amt : Nat) : Option (List (Nat × Nat)) :=
  match alookup l acct with
  | some bal => some (ainsert l acct (bal + amt))
  | none => none

/-- Total currency issuance: the sum of all ledger balances. -/
def totalIssuanceOf (l : List (Nat × Nat)) : Nat :=
  (l.map (fun e => e.2)).sum

/-- Lex comparison used for the candidate pool: amount asc, owner asc. -/
def bondPoolLe (a b : Bond) : Bool :=
  decide (a.amount < b.amount) || (decide (a.amount = b.amount) && decide (a.owner ≤ b.owner))

/-- Top bucket comparison: amount desc, ties by owner asc (spec section 4.2). -/
def bondTopLe (a b : Bond) : Bool :=
  decide (b.amount < a.amount) || (decide (a.amount = b.amount) && decide (a.owner ≤ b.owner))

/-- Modelled from the spec: `OrderedSet::insert` (set.rs is not in src);
section 4.1 — a deduplicated container ordered by (amount asc, owner asc)
whose insert fails when the owner is already present. -/
def orderedSetInsert (pool : List Bond) (b : Bond) : Option (List Bond) :=
  if pool.any (fun x => decide (x.owner = b.owner)) then none
  else some (insertBy bondPoolLe b pool)

/-- Modelled from the spec: `OrderedSet` removal by owner (set.rs not in src). -/
def orderedSetRemove (pool : List Bond) (owner : Nat) : List Bond :=
  pool.filter (fun x => decide (x.owner ≠ owner))

/-- Pool update performed by `update_active`: remove the candidate's entry and
re-insert it with the new counted total. -/
def updateActivePool (pool : List Bond) (candidate total : Nat) : List Bond :=
  insertBy bondPoolLe ⟨candidate, total⟩ (orderedSetRemove pool candidate)

/-- Map from delegator to pending action, built like the source's
`BTreeMap` collect (later entries win). -/
def requestMap (requests : List ScheduledRequest) : List (Nat × DelegationAction) :=
  requests.foldl (fun m r => ainsert m r.delegator r.action) []

/-- Result of `get_rewardable_delegators` (`CountedDelegations`). -/
structure CountedDelegations where
  uncountedStake : Nat
  rewardableDelegations : List Bond
deriving DecidableEq, Repr

/-- One pass of `get_rewardable_delegators`: adjust each top bond by its
pending request and accumulate the uncounted stake. -/
def adjustBonds (reqs : List (Nat × DelegationAction)) : List Bond → CountedDelegations
  | [] => ⟨0, []⟩
  | b :: rest =>
    let r := adjustBonds reqs rest
    match alookup reqs b.owner with
    | none => ⟨r.uncountedStake, ⟨b.owner, b.amount⟩ :: r.rewardableDelegations⟩
    | some (.revoke _) =>
      ⟨r.uncountedStake + b.amount, ⟨b.owner, 0⟩ :: r.rewardableDelegations⟩
    | some (.decrease x) =>
      ⟨r.uncountedStake + x, ⟨b.owner, b.amount - x⟩ :: r.rewardableDelegations⟩

/-- `get_rewardable_delegators` (src lib.rs): apply pending revoke/decrease
intents to the top delegations of a collator. -/
def getRewardableDelegators (requests : List ScheduledRequest) (top : List Bond) :
    CountedDelegations :=
  adjustBonds (requestMap requests) top

/-- Scheduled requests stored for a collator (`ValueQuery` default). -/
def requestsFor (s : GlobalState) (candidate : Nat) : List ScheduledRequest :=
  (alookup s.delegationScheduledRequests candidate).getD []

/-- Top delegations stored for a collator. -/
def topDelegationsFor (s : GlobalState) (candidate : Nat) : Delegations :=
  (alookup s.topDelegations candidate).getD emptyDelegations

/-- Bottom delegations stored for a collator. -/
def bottomDelegationsFor (s : GlobalState) (candidate : Nat) : Delegations :=
  (alookup s.bottomDelegations candidate).getD emptyDelegations

/-- Auto-compound configuration of a collator as a delegator-to-percent map,
built like the source's `BTreeMap` collect. -/
def autoCompoundMapFor (s : GlobalState) (candidate : Nat) : List (Nat × Nat) :=
  ((alookup s.autoCompoundingDelegations candidate).getD []).foldl
    (fun m e => ainsert m e.1 e.2) []

/-- Per-candidate snapshot construction, as in the selection loop of
`select_top_candidates` (src lib.rs lines 1604-1637). -/
def snapshotForCandidate (s : GlobalState) (account : Nat) (info : CandidateMetadata) :
    CollatorSnapshot :=
  let counted := getRewardableDelegators (requestsFor s account)
    (topDelegationsFor s account).delegations
  let totalCounted := info.totalCounted - counted.uncountedStake
  let acMap := autoCompoundMapFor s account
  { bond := info.bond
    delegations := counted.rewardableDelegations.map
      (fun d => ⟨d.owner, d.amount, (alookup acMap d.owner).getD 0⟩)
    total := totalCounted }

/-- Rust's stable `sort_by(|a, b| a.amount.cmp(&b.amount))` comparison. -/
def bondAmountLe (a b : Bond) : Bool :=
  decide (a.amount ≤ b.amount)

/-- `compute_top_candidates` (src lib.rs lines 1553-1568): stable-sort the pool
by amount ascending, reverse, take `TotalSelected`, keep those at or above
`MinCollatorStk`, then sort the chosen owners ascending. -/
def computeTopCandidates (minStk topN : Nat) (pool : List Bond) : List Nat :=
  let candidates := sortBy bondAmountLe pool
  let collators :=
    (((candidates.reverse).take topN).filter
      (fun x => decide (minStk ≤ x.amount))).map Bond.owner
  sortBy (fun a b => decide (a ≤ b)) collators

/-- The at-stake entries of one round, in storage order. -/
def atStakeEntriesFor (s : GlobalState) (r : Nat) : List (Nat × CollatorSnapshot) :=
  s.atStake.filterMap (fun e => if e.1.1 = r then some (e.1.2, e.2) else none)

/-- The `total_per_candidate` map built by the selection fallback. -/
def fallbackTotals (prev : List (Nat × CollatorSnapshot)) : List (Nat × Nat) :=
  prev.foldl (fun m e => ainsert m e.1 e.2.total) []

/-- Return value of `select_top_candidates`. -/
structure SelectResult where
  collatorCount : Nat
  delegationCount : Nat
  totalStaked : Nat
  collators : List Nat
deriving DecidableEq, Repr

/-- `select_top_candidates` (src lib.rs lines 1571-1647), including the
fallback that copies the previous round's snapshots forward when selection
produced no collator. A missing candidate record in the normal path is
skipped (the source `expect`s it to be present). -/
def selectTopCandidates (cfg : StakingConfig) (now : Nat) (s : GlobalState) :
    SelectResult × GlobalState :=
  let collators := computeTopCandidates cfg.minCollatorStk s.totalSelected s.candidatePool
  if collators.isEmpty then
    let lastRound := now - 1
    let prev := atStakeEntriesFor s lastRound
    let collatorCount := prev.length
    let delegationCount := (prev.map (fun e => e.2.delegations.length)).sum
    let total := (prev.map (fun e => e.2.total)).sum
    let totalPerCandidate := fallbackTotals prev
    let s1 := prev.foldl
      (fun st e => { st with atStake := ainsert st.atStake (now, e.1) e.2 }) s
    let s2 := s.selectedCandidates.foldl
      (fun st c =>
        emit st (.collatorChosen now c ((alookup totalPerCandidate c).getD 0))) s1
    (⟨collatorCount, delegationCount, total, collators⟩, s2)
  else
    let r := collators.foldl
      (fun (acc : SelectResult × GlobalState) account =>
        match alookup acc.2.candidateInfo account with
        | none => acc
        | some info =>
          let snap := snapshotForCandidate acc.2 account info
          let st2 := { acc.2 with atStake := ainsert acc.2.atStake (now, account) snap }
          let st3 := emit st2 (.collatorChosen now account info.totalCounted)
          (⟨acc.1.collatorCount + 1, acc.1.delegationCount + info.delegationCount,
            acc.1.totalStaked + info.totalCounted, acc.1.collators⟩, st3))
      (⟨0, 0, 0, collators⟩, s)
    (r.1, { r.2 with selectedCandidates := collators })

/-- `mint` (src lib.rs lines 1716-1723): deposit into the ledger; on success
emit `Rewarded`, on failure change nothing. -/
def mint (s : GlobalState) (amt acct : Nat) : GlobalState :=
  match depositIntoExisting s.ledger acct amt with
  | some led => emit { s with ledger := led } (.rewarded acct amt)
  | none => s

/-- Modelled from the spec: `delegation_request_revoke_exists`
(delegation_requests.rs is not in src) — whether a pending `Revoke` exists
for (candidate, delegator); section 4.4. -/
def delegationRequestRevokeExists (s : GlobalState) (candidate delegator : Nat) : Bool :=
  (requestsFor s candidate).any
    (fun r => decide (r.delegator = delegator) &&
      match r.action with
      | .revoke _ => true
      | .decrease _ => false)

/-- Modelled from the spec: `Delegator::increase_delegation` (types.rs is not
in src). Section 4.2 rule 1: the delta is applied in place; an increase that
crosses the top/bottom boundary is rebalanced into the top bucket. The
delegator's lock is reconciled to the new total (section 5) and `Total` grows
by the increase. Returns whether the delegation now counts toward the top. -/
def increaseDelegation (cfg : StakingConfig) (s : GlobalState) (d : Delegator)
    (candidate more : Nat) : Except StakingError (GlobalState × Bool) :=
  match d.delegations.find? (fun b => decide (b.owner = candidate)) with
  | none => .error .delegationDNE
  | some bond =>
    if (alookup s.ledger d.id).getD 0 < d.total + more then .error .insufficientBalance
    else
      match alookup s.candidateInfo candidate with
      | none => .error .candidateDNE
      | some info =>
        let newAmount := bond.amount + more
        let d2 : Delegator :=
          { d with
            delegations := d.delegations.map
              (fun b => if b.owner = candidate then ⟨b.owner, b.amount + more⟩ else b)
            total := d.total + more }
        let top := topDelegationsFor s candidate
        let bottom := bottomDelegationsFor s candidate
        let base := { s with
          delegatorState := ainsert s.delegatorState d.id d2
          delegatorLocks := ainsert s.delegatorLocks d.id d2.total
          total := s.total + more }
        if top.delegations.any (fun b => decide (b.owner = d.id)) then
          let newTop : Delegations :=
            ⟨sortBy bondTopLe (top.delegations.map
                (fun b => if b.owner = d.id then ⟨b.owner, b.amount + more⟩ else b)),
              top.total + more⟩
          let info2 := { info with totalCounted := info.totalCounted + more }
          .ok ({ base with
            topDelegations := ainsert base.topDelegations candidate newTop
            candidateInfo := ainsert base.candidateInfo candidate info2
            candidatePool :=
              if info2.status = .active then
                updateActivePool base.candidatePool candidate info2.totalCounted
              else base.candidatePool }, true)
        else if bottom.delegations.any (fun b => decide (b.owner = d.id)) then
          let bottomRest := bottom.delegations.filter (fun b => decide (b.owner ≠ d.id))
          if top.delegations.length < cfg.maxTopDelegationsPerCandidate then
            let newTop : Delegations :=
              ⟨sortBy bondTopLe (⟨d.id, newAmount⟩ :: top.delegations), top.total + newAmount⟩
            let newBottom : Delegations := ⟨bottomRest, bottom.total - bond.amount⟩
            let info2 := { info with totalCounted := info.totalCounted + newAmount }
            .ok ({ base with
              topDelegations := ainsert base.topDelegations candidate newTop
              bottomDelegations := ainsert base.bottomDelegations candidate newBottom
              candidateInfo := ainsert base.candidateInfo candidate info2
              candidatePool :=
                if info2.status = .active then
                  updateActivePool base.candidatePool candidate info2.totalCounted
                else base.candidatePool }, true)
          else
            let sortedTop := sortBy bondTopLe top.delegations
            let lowest := (sortedTop.getLast?).getD ⟨0, 0⟩
            if lowest.amount < newAmount then
              let newTop : Delegations :=
                ⟨sortBy bondTopLe (⟨d.id, newAmount⟩ :: sortedTop.dropLast),
                  top.total - lowest.amount + newAmount⟩
              let newBottom : Delegations :=
                ⟨sortBy bondPoolLe (lowest :: bottomRest),
                  bottom.total - bond.amount + lowest.amount⟩
              let info2 :=
                { info with totalCounted := info.totalCounted - lowest.amount + newAmount }
              .ok ({ base with
                topDelegations := ainsert base.topDelegations candidate newTop
                bottomDelegations := ainsert base.bottomDelegations candidate newBottom
                candidateInfo := ainsert base.candidateInfo candidate info2
                candidatePool :=
                  if info2.status = .active then
                    updateActivePool base.candidatePool candidate info2.totalCounted
                  else base.candidatePool }, true)
            else
              let newBottom : Delegations :=
                ⟨sortBy bondPoolLe (⟨d.id, newAmount⟩ :: bottomRest), bottom.total + more⟩
              .ok ({ base with
                bottomDelegations := ainsert base.bottomDelegations candidate newBottom },
                false)
        else .error .delegationDNE

/-- `delegation_bond_more_without_event` (src lib.rs lines 1702-1713): reject
when a pending revoke exists, then increase the delegation. -/
def delegationBondMoreWithoutEvent (cfg : StakingConfig) (s : GlobalState)
    (delegator candidate more : Nat) : Except StakingError (GlobalState × Bool) :=
  if delegationRequestRevokeExists s candidate delegator then
    .error .pendingDelegationRevoke
  else
    match alookup s.delegatorState delegator with
    | none => .error .delegatorDNE
    | some d => increaseDelegation cfg s d candidate more

/-- The compounding tail of `mint_and_compound`: apply the bond-more; on
failure keep the minted state, on success emit `Compounded`. -/
def compoundStep (cfg : StakingConfig) (s1 : GlobalState)
    (candidate delegator compoundAmount : Nat) : GlobalState :=
  match delegationBondMoreWithoutEvent cfg s1 delegator candidate compoundAmount with
  | .error _ => s1
  | .ok (s2, _) => emit s2 (.compounded candidate delegator compoundAmount)

/-- `mint_and_compound` (src lib.rs lines 1729-1766): mint the reward to the
delegator; on success try to compound `mul_ceil(percent, amount)` back as a
bond-more, keeping the mint when the compound step fails. -/
def mintAndCompound (cfg : StakingConfig) (s : GlobalState)
    (amt compoundPercent candidate delegator : Nat) : GlobalState :=
  match depositIntoExisting s.ledger delegator amt with
  | none => s
  | some led =>
    let s1 := emit { s with ledger := led } (.rewarded delegator amt)
    let compoundAmount := percentMulCeil compoundPercent amt
    if compoundAmount = 0 then s1
    else compoundStep cfg s1 candidate delegator compoundAmount

/-- The first awarded-points entry of a round, as returned by
`iter_prefix(...).drain().next()`. -/
def awardedFirst (s : GlobalState) (r : Nat) : Option (Nat × Nat) :=
  (s.awardedPts.find? (fun e => decide (e.1.1 = r))).map (fun e => (e.1.2, e.2))

/-- The delegator payout loop of `pay_one_collator_reward`. -/
def payDelegations (cfg : StakingConfig) (collator snapTotal amtDue : Nat) :
    List BondWithAutoCompound → GlobalState → GlobalState
  | [], st => st
  | b :: rest, st =>
    let pct := perbillFromRational b.amount snapTotal
    let due := perbillMul pct amtDue
    let st2 := if due = 0 then st else mintAndCompound cfg st due b.autoCompound collator b.owner
    payDelegations cfg collator snapTotal amtDue rest st2

/-- The state left after draining one awarded-points entry and taking its
snapshot in `pay_one_collator_reward`. -/
def drainState (s : GlobalState) (r c : Nat) : GlobalState :=
  { s with
    awardedPts := aremove s.awardedPts (r, c)
    atStake := aremove s.atStake (r, c) }

/-- `pay_one_collator_reward` (src lib.rs lines 1469-1549). -/
def payOneCollatorReward (cfg : StakingConfig) (paidForRound : Nat)
    (info : DelayedPayout) (s : GlobalState) : Option (Nat × Nat) × GlobalState :=
  let totalPoints := (alookup s.points paidForRound).getD 0
  if totalPoints = 0 then (none, s)
  else
    let collatorIssuance := perbillMul info.collatorCommission info.roundIssuance
    match awardedFirst s paidForRound with
    | none => (none, s)
    | some (collator, pts) =>
      let s1 := { s with awardedPts := aremove s.awardedPts (paidForRound, collator) }
      let pctDue := perbillFromRational pts totalPoints
      let totalPaid := perbillMul pctDue info.totalStakingReward
      let snap := (alookup s1.atStake (paidForRound, collator)).getD emptySnapshot
      let s2 := { s1 with atStake := aremove s1.atStake (paidForRound, collator) }
      if snap.delegations.isEmpty then
        (some (collator, totalPaid), mint s2 totalPaid collator)
      else
        let collatorPct := perbillFromRational snap.bond snap.total
        let commission := perbillMul pctDue collatorIssuance
        let amtDue := totalPaid - commission
        let collatorReward := perbillMul collatorPct amtDue + commission
        let s3 := mint s2 collatorReward collator
        (some (collator, totalPaid),
          payDelegations cfg collator snap.total amtDue snap.delegations s3)

/-- Modelled from the spec: `round_issuance_range` (inflation.rs not in src) —
the per-round issuance band applies the per-round inflation rates to the
circulating total issuance. The piecewise selection is translated from
`compute_issuance` (src lib.rs lines 1360-1371). -/
def computeIssuance (s : GlobalState) (staked : Nat) : Nat :=
  let config := s.inflationConfig
  let circulating := totalIssuanceOf s.ledger
  if staked < config.expect.low then perbillMul config.round.low circulating
  else if config.expect.high < staked then perbillMul config.round.high circulating
  else perbillMul config.round.ideal circulating

/-- `prepare_staking_payouts` (src lib.rs lines 1393-1428). -/
def prepareStakingPayouts (cfg : StakingConfig) (now : Nat) (s : GlobalState) : GlobalState :=
  if now ≤ cfg.rewardPaymentDelay then s
  else
    let roundToPayout := now - cfg.rewardPaymentDelay
    let totalPoints := (alookup s.points roundToPayout).getD 0
    if totalPoints = 0 then s
    else
      let totalStaked := (alookup s.staked roundToPayout).getD 0
      let s1 := { s with staked := aremove s.staked roundToPayout }
      let totalIssuance := computeIssuance s1 totalStaked
      let reserve := percentMulFloor s1.parachainBondInfo.percent totalIssuance
      let next :=
        match depositIntoExisting s1.ledger s1.parachainBondInfo.account reserve with
        | some led =>
          (totalIssuance - reserve,
            emit { s1 with ledger := led }
              (.reservedForParachainBond s1.parachainBondInfo.account reserve))
        | none => (totalIssuance, s1)
      { next.2 with delayedPayouts :=
          (ainsert next.2.delayedPayouts roundToPayout
            ⟨totalIssuance, next.1, next.2.collatorCommission⟩) }

/-- Bounded `clear_prefix` over the at-stake entries of one round. -/
def clearAtStakeRound (r : Nat) : Nat → List ((Nat × Nat) × CollatorSnapshot) →
    List ((Nat × Nat) × CollatorSnapshot)
  | _, [] => []
  | limit, e :: rest =>
    if e.1.1 = r then
      match limit with
      | 0 => e :: rest
      | Nat.succ l => clearAtStakeRound r l rest
    else e :: clearAtStakeRound r limit rest

/-- `handle_delayed_payouts` (src lib.rs lines 1434-1463). -/
def handleDelayedPayouts (cfg : StakingConfig) (now : Nat) (s : GlobalState) : GlobalState :=
  if now < cfg.rewardPaymentDelay then s
  else
    let paidForRound := now - cfg.rewardPaymentDelay
    match alookup s.delayedPayouts paidForRound with
    | none => s
    | some info =>
      let r := payOneCollatorReward cfg paidForRound info s
      match r.1 with
      | none =>
        let s2 := { r.2 with
          delayedPayouts := aremove r.2.delayedPayouts paidForRound
          points := aremove r.2.points paidForRound }
        { s2 with atStake := clearAtStakeRound paidForRound 20 s2.atStake }
      | some _ => r.2

/-- Modelled from the spec: `RoundInfo::update` (types.rs not in src);
section 4.5 steps 1-2 — advance the round and reset its first block. -/
def roundUpdate (r : RoundInfo) (blockNumber : Nat) : RoundInfo :=
  { r with current := r.current + 1, first := blockNumber }

/-- `new_session` from the `SessionManager` impl (src lib.rs lines 1795-1829):
advance the round, prepare payouts, select and snapshot the next collators,
record the staked total, drip one payout, emit `NewRound`, and return
`Some` of the computed collator list. -/
def newSession (cfg : StakingConfig) (blockNumber : Nat) (s : GlobalState) :
    Option (List Nat) × GlobalState :=
  let round := roundUpdate s.round blockNumber
  let s1 := prepareStakingPayouts cfg round.current s
  let selected := selectTopCandidates cfg round.current s1
  let s3 := { selected.2 with round := round }
  let s4 := { s3 with staked := ainsert s3.staked round.current s3.total }
  let s5 := handleDelayedPayouts cfg round.current s4
  let s6 := emit s5 (.newRound round.first round.current
    selected.1.collatorCount selected.1.totalStaked)
  (some selected.1.collators, s6)

/-- Whether the account is a registered candidate. -/
def isCandidate (s : GlobalState) (acc : Nat) : Bool :=
  (alookup s.candidateInfo acc).isSome

/-- Whether the account is a registered delegator. -/
def isDelegator (s : GlobalState) (acc : Nat) : Bool :=
  (alookup s.delegatorState acc).isSome

/-- `get_collator_stakable_free_balance` (src lib.rs lines 1338-1344). -/
def collatorStakableFreeBalance (s : GlobalState) (acc : Nat) : Nat :=
  (alookup s.ledger acc).getD 0 -
    (match alookup s.candidateInfo acc with
     | some info => info.bond
     | none => 0)

/-- Modelled from the spec: `CandidateMetadata::new` (types.rs not in src);
a fresh candidate is Active with `total_counted = bond` and no delegations. -/
def newCandidateMetadata (bond : Nat) : CandidateMetadata :=
  ⟨bond, 0, bond, none, .active⟩

/-- `join_candidates` (src lib.rs lines 884-924); guards run in source order
and precede every write, so a failing call commits nothing. -/
def joinCandidates (cfg : StakingConfig) (s : GlobalState) (acc bond candidateCount : Nat) :
    Except StakingError GlobalState :=
  if isCandidate s acc then .error .candidateExists
  else if isDelegator s acc then .error .delegatorExists
  else if bond < cfg.minCandidateStk then .error .candidateBondBelowMin
  else if candidateCount < s.candidatePool.length then
    .error .tooLowCandidateCountWeightHintJoinCandidates
  else
    match orderedSetInsert s.candidatePool ⟨acc, bond⟩ with
    | none => .error .candidateExists
    | some newPool =>
      if collatorStakableFreeBalance s acc < bond then .error .insufficientBalance
      else
        let newTotal := s.total + bond
        .ok (emit { s with
          collatorLocks := ainsert s.collatorLocks acc bond
          candidateInfo := ainsert s.candidateInfo acc (newCandidateMetadata bond)
          topDelegations := ainsert s.topDelegations acc emptyDelegations
          bottomDelegations := ainsert s.bottomDelegations acc emptyDelegations
          candidatePool := newPool
          total := newTotal }
          (.joinedCollatorCandidates acc bond newTotal))

/-- Modelled from the spec: `Delegator::rm_delegation` (types.rs not in src);
removes the delegation toward `candidate`, decreasing `total`, and returns the
remaining total, or `none` when no such delegation exists. -/
def rmDelegation (d : Delegator) (candidate : Nat) : Option (Delegator × Nat) :=
  match d.delegations.find? (fun b => decide (b.owner = candidate)) with
  | none => none
  | some b =>
    let d2 := { d with
      delegations := d.delegations.filter (fun x => decide (x.owner ≠ candidate))
      total := d.total - b.amount }
    some (d2, d2.total)

/-- Modelled from the spec: `delegation_remove_request_with_state`
(delegation_requests.rs not in src); drops the pending request for
(collator, delegator). -/
def delegationRemoveRequestWithState (s : GlobalState) (collator delegator : Nat) :
    GlobalState :=
  { s with delegationScheduledRequests :=
      (ainsert s.delegationScheduledRequests collator
        ((requestsFor s collator).filter (fun r => decide (r.delegator ≠ delegator)))) }

/-- Modelled from the spec: `AutoCompoundDelegations::remove_auto_compound`
(auto_compound.rs not in src); drops the (candidate, delegator) entry. -/
def removeAutoCompound (s : GlobalState) (candidate delegator : Nat) : GlobalState :=
  { s with autoCompoundingDelegations :=
      (ainsert s.autoCompoundingDelegations candidate
        (((alookup s.autoCompoundingDelegations candidate).getD []).filter
          (fun e => decide (e.1 ≠ delegator)))) }

/-- The `return_stake` closure of `execute_leave_candidates` (src lib.rs
lines 968-998). When the delegator retains other delegations, its state is
re-inserted with the reduced total but its lock is not touched; when it has
none left, state and lock are removed. A missing delegator record only clears
the lock (the `None` arm of the source); the initial lookup `expect` is
modelled as a skip. -/
def returnStake (candidate : Nat) (s : GlobalState) (b : Bond) : GlobalState :=
  match alookup s.delegatorState b.owner with
  | none => s
  | some d =>
    match rmDelegation d candidate with
    | some (d2, remaining) =>
      let s1 := delegationRemoveRequestWithState s candidate b.owner
      let s2 := removeAutoCompound s1 candidate b.owner
      if remaining = 0 then
        { s2 with
          delegatorState := aremove s2.delegatorState b.owner
          delegatorLocks := aremove s2.delegatorLocks b.owner }
      else
        { s2 with delegatorState := ainsert s2.delegatorState b.owner d2 }
    | none =>
      { s with delegatorLocks := aremove s.delegatorLocks b.owner }

/-- Modelled from the spec: `CandidateMetadata::can_leave` (types.rs not in
src); the section 4.3 guard for `execute_leave_candidates`. -/
def canLeave (info : CandidateMetadata) (now : Nat) : Option StakingError :=
  match info.status with
  | .leaving w => if w ≤ now then none else some .candidateCannotLeaveYet
  | _ => some .candidateNotLeaving

/-- `execute_leave_candidates` (src lib.rs lines 956-1031). -/
def executeLeaveCandidates (s : GlobalState)
    (candidate candidateDelegationCount : Nat) : Except StakingError GlobalState :=
  match alookup s.candidateInfo candidate with
  | none => .error .candidateDNE
  | some state =>
    if candidateDelegationCount < state.delegationCount then
      .error .tooLowCandidateDelegationCountToLeaveCandidates
    else
      match canLeave state s.round.current with
      | some e => .error e
      | none =>
        let top := topDelegationsFor s candidate
        let s1 := { s with topDelegations := aremove s.topDelegations candidate }
        let s2 := top.delegations.foldl (returnStake candidate) s1
        let bottom := bottomDelegationsFor s2 candidate
        let s3 := { s2 with bottomDelegations := aremove s2.bottomDelegations candidate }
        let s4 := bottom.delegations.foldl (returnStake candidate) s3
        let totalBacking := state.bond + top.total + bottom.total
        let newTotalStaked := s4.total - totalBacking
        let s5 := { s4 with
          collatorLocks := aremove s4.collatorLocks candidate
          candidateInfo := aremove s4.candidateInfo candidate
          delegationScheduledRequests := aremove s4.delegationScheduledRequests candidate
          autoCompoundingDelegations := aremove s4.autoCompoundingDelegations candidate
          topDelegations := aremove s4.topDelegations candidate
          bottomDelegations := aremove s4.bottomDelegations candidate
          total := newTotalStaked }
        .ok (emit s5 (.candidateLeft candidate totalBacking newTotalStaked))

/-- `delegator_bond_more` (src lib.rs lines 1216-1235). -/
def delegatorBondMore (cfg : StakingConfig) (s : GlobalState)
    (delegator candidate more : Nat) : Except StakingError GlobalState :=
  match delegationBondMoreWithoutEvent cfg s delegator candidate more with
  | .error e => .error e
  | .ok (s1, inTop) => .ok (emit s1 (.delegationIncreased delegator candidate more inTop))

/-- Public operations covered by the embedding, for replay. -/
inductive Op
  | joinCandidates (acc bond candidateCount : Nat)
  | executeLeaveCandidates (candidate candidateDelegationCount : Nat)
  | delegatorBondMore (delegator candidate more : Nat)
  | newSession (blockNumber index : Nat)
deriving DecidableEq, Repr

/-- Apply one operation; a failed extrinsic commits no state change. -/
def applyOp (cfg : StakingConfig) (s : GlobalState) : Op → GlobalState
  | .joinCandidates acc bond cnt =>
    match joinCandidates cfg s acc bond cnt with
    | .ok s2 => s2
    | .error _ => s
  | .executeLeaveCandidates cand cnt =>
    match executeLeaveCandidates s cand cnt with
    | .ok s2 => s2
    | .error _ => s
  | .delegatorBondMore d c m =>
    match delegatorBondMore cfg s d c m with
    | .ok s2 => s2
    | .error _ => s
  | .newSession b _ => (newSession cfg b s).2

/-- Replay an ordered sequence of public operations from a genesis state. -/
def replay (cfg : StakingConfig) (genesis : GlobalState) (ops : List Op) : GlobalState :=
  ops.foldl (applyOp cfg) genesis

/-- The claim's reward weight for a delegation under a pending request (C2):
Revoke records 0, Decrease x records amount − x, none records the amount. -/
def adjustedAmount (req : Option DelegationAction) (amount : Nat) : Nat :=
  match req with
  | none => amount
  | some (.revoke _) => 0
  | some (.decrease x) => amount - x

/-- The claim's uncounted-stake contribution of a delegation (C2):
Revoke adds the full amount, Decrease x adds x, none adds nothing. -/
def uncountedContribution (req : Option DelegationAction) (amount : Nat) : Nat :=
  match req with
  | none => 0
  | some (.revoke _) => amount
  | some (.decrease x) => x

/-- Comparison "(amount desc, owner asc)" from the claim's selection rule. -/
def bondClaimLe (a b : Bond) : Bool :=
  decide (b.amount < a.amount) || (decide (a.amount = b.amount) && decide (a.owner ≤ b.owner))

/-- Comparison "(amount desc, owner desc)": the tie-break the code realizes. -/
def bondAmendedLe (a b : Bond) : Bool :=
  decide (b.amount < a.amount) || (decide (a.amount = b.amount) && decide (b.owner ≤ a.owner))

/-- Selection procedure exactly as claim C3 words it: sort the pool by
(amount desc, owner asc), take the first `topN` entries whose amount is at
least `minStk`, then re-sort the taken owners ascending. -/
def claimSelectedCandidates (minStk topN : Nat) (pool : List Bond) : List Nat :=
  sortBy (fun a b => decide (a ≤ b))
    ((((sortBy bondClaimLe pool).filter
      (fun x => decide (minStk ≤ x.amount))).take topN).map Bond.owner)

/-- The amended selection procedure: identical to the claim's except that ties
between equal amounts are taken by descending owner. -/
def amendedSelectedCandidates (minStk topN : Nat) (pool : List Bond) : List Nat :=
  sortBy (fun a b => decide (a ≤ b))
    ((((sortBy bondAmendedLe pool).filter
      (fun x => decide (minStk ≤ x.amount))).take topN).map Bond.owner)

/-- Strict (amount, owner) lexicographic order: the storage invariant of the
CandidatePool (section 4.1) phrased as a chain relation. -/
def bondLexLt (a b : Bond) : Prop :=
  a.amount < b.amount ∨ (a.amount = b.amount ∧ a.owner < b.owner)

instance : DecidableRel bondLexLt := fun a b => by
  unfold bondLexLt; infer_instance

/-- Whether an event is a `Rewarded` (i.e. successful mint) observation. -/
def isRewardedEvent : Event → Bool
  | .rewarded _ _ => true
  | _ => false

/-- Whether an event credits or compounds toward the given account. -/
def mentionsBeneficiary (d : Nat) : Event → Bool
  | .rewarded a _ => decide (a = d)
  | .compounded _ del _ => decide (del = d)
  | _ => false

/-- The claim's `share = p / P_tot` as a Perbill (C1). -/
def claimShare (p Ptot : Nat) : Nat :=
  perbillFromRational p Ptot

/-- The claim's `total_paid = share * R` (C1). -/
def claimTotalPaid (p Ptot R : Nat) : Nat :=
  perbillMul (claimShare p Ptot) R

/-- The claim's `commission = share * kappa * I` (C1). -/
def claimCommission (p Ptot kappa issuance : Nat) : Nat :=
  perbillMul (claimShare p Ptot) (perbillMul kappa issuance)

/-- The claim's collator reward
`commission + (snap.bond / snap.total) * (total_paid - commission)` (C1). -/
def claimCollatorReward (p Ptot : Nat) (info : DelayedPayout) (snap : CollatorSnapshot) : Nat :=
  perbillMul (perbillFromRational snap.bond snap.total)
    (claimTotalPaid p Ptot info.totalStakingReward -
      claimCommission p Ptot info.collatorCommission info.roundIssuance) +
  claimCommission p Ptot info.collatorCommission info.roundIssuance

/-- The claim's per-delegation due amount
`(A / snap.total) * (total_paid - commission)` (C1). -/
def claimDelegatorDue (p Ptot : Nat) (info : DelayedPayout) (snap : CollatorSnapshot)
    (amount : Nat) : Nat :=
  perbillMul (perbillFromRational amount snap.total)
    (claimTotalPaid p Ptot info.totalStakingReward -
      claimCommission p Ptot info.collatorCommission info.roundIssuance)

/-- Concrete pallet configuration used by the witness states. -/
def cfgEx : StakingConfig :=
  ⟨2, 2, 1, 2, 1, 10, 10, 1⟩

/-- The all-empty state, basis of the concrete witness states. -/
def emptyState : GlobalState :=
  { ledger := []
    collatorCommission := 0
    totalSelected := 0
    parachainBondInfo := ⟨0, 0⟩
    round := ⟨1, 0, 10⟩
    delegatorState := []
    candidateInfo := []
    delegationScheduledRequests := []
    autoCompoundingDelegations := []
    topDelegations := []
    bottomDelegations := []
    selectedCandidates := []
    total := 0
    candidatePool := []
    atStake := []
    delayedPayouts := []
    staked := []
    inflationConfig := ⟨⟨0, 0, 0⟩, ⟨0, 0, 0⟩, ⟨0, 0, 0⟩⟩
    points := []
    awardedPts := []
    collatorLocks := []
    delegatorLocks := []
    events := [] }

/-- Payout witness state: round 1 matured with 100 total points, collator 7
holding 40 points and a snapshot with one delegation from account 30. -/
def payoutStateEx : GlobalState :=
  { emptyState with
    ledger := [(7, 1000), (30, 500)]
    points := [(1, 100)]
    awardedPts := [((1, 7), 40)]
    atStake := [((1, 7), ⟨20, [⟨30, 10, 0⟩], 30⟩)] }

/-- Payout info for the payout witness: issuance 1000, staking reward 800,
commission 20 percent as a Perbill. -/
def payoutInfoEx : DelayedPayout :=
  ⟨1000, 800, 200000000⟩

/-- Dropped-mint witness state: the snapshot delegators 30 (dead account) and
31 (existing) both earn a share; 30's mint must be silently dropped. -/
def payoutDropStateEx : GlobalState :=
  { emptyState with
    ledger := [(7, 1000), (31, 500)]
    points := [(1, 100)]
    awardedPts := [((1, 7), 40)]
    atStake := [((1, 7), ⟨20, [⟨30, 10, 0⟩, ⟨31, 10, 0⟩], 40⟩)] }

/-- Stale-lock state for C4: candidate 1 is leaving and executable; delegator
10 delegates 5 to candidate 1 and 7 to candidate 2, with lock 12. -/
def leaveStateEx : GlobalState :=
  { emptyState with
    round := ⟨5, 0, 10⟩
    candidateInfo := [(1, ⟨20, 1, 25, none, .leaving 3⟩)]
    topDelegations := [(1, ⟨[⟨10, 5⟩], 5⟩)]
    bottomDelegations := [(1, ⟨[], 0⟩)]
    delegatorState := [(10, ⟨10, [⟨1, 5⟩, ⟨2, 7⟩], 12, .active⟩)]
    delegatorLocks := [(10, 12)]
    total := 32 }

/-- Fallback state: empty candidate pool, previously selected collator 1 with
a round-1 snapshot of total 50. -/
def fallbackStateEx : GlobalState :=
  { emptyState with
    round := ⟨1, 0, 10⟩
    totalSelected := 2
    selectedCandidates := [1]
    atStake := [((1, 1), ⟨50, [], 50⟩)] }

/-- Join-candidates state: account 1 is already a candidate with bond 20. -/
def joinStateEx : GlobalState :=
  { emptyState with
    ledger := [(1, 100), (2, 100)]
    candidateInfo := [(1, ⟨20, 0, 20, none, .active⟩)]
    candidatePool := [⟨1, 20⟩]
    collatorLocks := [(1, 20)]
    total := 20 }

/-- Compound-failure state: delegator 5 exists in the ledger and has a pending
revoke toward candidate 2, so the compound bond-more must fail. -/
def compoundStateEx : GlobalState :=
  { emptyState with
    ledger := [(5, 100)]
    delegationScheduledRequests := [(2, [⟨5, 3, .revoke 10⟩])] }

/-- Genesis and operation sequence for the determinism witness. -/
def replayOpsEx : List Op :=
  [.joinCandidates 1 20 0, .delegatorBondMore 5 1 3, .newSession 10 1]

deriving instance DecidableEq for Except

theorem alookup_ainsert {κ β : Type} [DecidableEq κ] (l : List (κ × β)) (k : κ) (v : β)
    (a : κ) : alookup (ainsert l k v) a = if a = k then some v else alookup l a := by
  induction l with
  | nil =>
    by_cases h : a = k
    · simp [ainsert, alookup, h]
    · have h2 : ¬ (k = a) := fun hh => h (Eq.symm hh)
      simp [ainsert, alookup, h, h2]
  | cons e rest ih =>
    by_cases he : e.1 = k
    · by_cases ha : a = k
      · simp [ainsert, alookup, he, ha]
      · have : ¬ (k = a) := fun hh => ha (Eq.symm hh)
        have he2 : ¬ (e.1 = a) := by rw [he]; exact this
        simp [ainsert, alookup, he, ha, this, he2]
    · by_cases hea : e.1 = a
      · have : ¬ (a = k) := by rw [← hea]; exact fun hh => he hh
        simp [ainsert, alookup, he, hea, this]
      · simp [ainsert, alookup, he, hea, ih]

theorem alookup_eq_none_of_not_mem {κ β : Type} [DecidableEq κ] (l : List (κ × β)) (a : κ)
    (h : a ∉ l.map Prod.fst) : alookup l a = none := by
  induction l with
  | nil => rfl
  | cons e rest ih =>
    simp only [List.map_cons, List.mem_cons] at h
    push_neg at h
    have : ¬ (e.1 = a) := fun hh => h.1 (Eq.symm hh)
    simp [alookup, this, ih h.2]

theorem alookup_foldl_ainsert {β δ κ : Type} [DecidableEq κ]
    (kf : Nat → κ) (vf : Nat × β → δ) (hinj : ∀ x y, kf x = kf y → x = y) :
    ∀ (prev : List (Nat × β)) (base : List (κ × δ)) (a : Nat),
      (prev.map Prod.fst).Nodup →
      alookup (prev.foldl (fun m e => ainsert m (kf e.1) (vf e)) base) (kf a) =
        (match alookup prev a with
         | some v => some (vf (a, v))
         | none => alookup base (kf a)) := by
  intro prev
  induction prev with
  | nil => intro base a _; rfl
  | cons e rest ih =>
    intro base a hnd
    simp only [List.map_cons, List.nodup_cons] at hnd
    by_cases hea : e.1 = a
    · have hnr : alookup rest a = none :=
        alookup_eq_none_of_not_mem rest a (by rw [← hea]; exact hnd.1)
      have hk : kf a = kf e.1 := by rw [hea]
      have h1 : alookup (ainsert base (kf e.1) (vf e)) (kf a) = some (vf e) := by
        rw [alookup_ainsert, if_pos hk]
      have h2 : alookup (e :: rest) a = some e.2 := by
        simp [alookup, hea]
      have h3 : e = (a, e.2) := by rw [← hea]
      rw [List.foldl_cons, ih (ainsert base (kf e.1) (vf e)) a hnd.2]
      simp only [hnr, h1, h2]
      rw [h3]
    · have hk : ¬ (kf a = kf e.1) := fun hh => hea (Eq.symm (hinj a e.1 hh))
      have h2 : alookup (e :: rest) a = alookup rest a := by
        simp [alookup, hea]
      rw [List.foldl_cons, ih (ainsert base (kf e.1) (vf e)) a hnd.2, h2]
      cases hr : alookup rest a with
      | some v => simp [hr]
      | none =>
        simp only [hr, alookup_ainsert, if_neg hk]

theorem sortBy_eq_of_chain {α : Type} (le : α → α → Bool) :
    ∀ l : List α, List.Chain' (fun a b => le a b = true) l → sortBy le l = l := by
  intro l
  induction l with
  | nil => intro _; rfl
  | cons x rest ih =>
    intro hc
    have hrest := hc.tail
    have : sortBy le (x :: rest) = insertBy le x (sortBy le rest) := rfl
    rw [this, ih hrest]
    cases rest with
    | nil => rfl
    | cons y ys =>
      have hxy : le x y = true := List.chain'_cons.mp hc |>.1
      simp [insertBy, hxy]

theorem insertBy_append_of_all_false {α : Type} (le : α → α → Bool) (x : α) :
    ∀ m : List α, (∀ y ∈ m, le x y = false) → insertBy le x m = m ++ [x] := by
  intro m
  induction m with
  | nil => intro _; rfl
  | cons y ys ih =>
    intro h
    have hy : le x y = false := h y (List.mem_cons_self y ys)
    simp only [insertBy, hy, Bool.false_eq_true, if_false, List.cons_append]
    rw [ih (fun z hz => h z (List.mem_cons_of_mem y hz))]

theorem sortBy_eq_reverse_of_pairwise {α : Type} (le : α → α → Bool) :
    ∀ l : List α, l.Pairwise (fun a b => le a b = false) → sortBy le l = l.reverse := by
  intro l
  induction l with
  | nil => intro _; rfl
  | cons x rest ih =>
    intro hp
    have hx := (List.pairwise_cons.mp hp).1
    have hrest := (List.pairwise_cons.mp hp).2
    have : sortBy le (x :: rest) = insertBy le x (sortBy le rest) := rfl
    rw [this, ih hrest, insertBy_append_of_all_false le x rest.reverse
      (fun y hy => hx y (List.mem_reverse.mp hy)), List.reverse_cons]

theorem filter_take_of_antitone (minStk : Nat) :
    ∀ l : List Bond, l.Pairwise (fun a b => b.amount ≤ a.amount) →
      ∀ n, (l.take n).filter (fun x => decide (minStk ≤ x.amount)) =
        (l.filter (fun x => decide (minStk ≤ x.amount))).take n := by
  intro l
  induction l with
  | nil => intro _ n; simp
  | cons x xs ih =>
    intro hp n
    have hx := (List.pairwise_cons.mp hp).1
    have hxs := (List.pairwise_cons.mp hp).2
    cases n with
    | zero => simp
    | succ m =>
      have e1 : (x :: xs).take (m + 1) = x :: xs.take m := rfl
      by_cases hpx : minStk ≤ x.amount
      · have e2 : (x :: xs.take m).filter (fun y => decide (minStk ≤ y.amount)) =
            x :: (xs.take m).filter (fun y => decide (minStk ≤ y.amount)) := by
          simp [List.filter_cons, hpx]
        have e3 : (x :: xs).filter (fun y => decide (minStk ≤ y.amount)) =
            x :: xs.filter (fun y => decide (minStk ≤ y.amount)) := by
          simp [List.filter_cons, hpx]
        rw [e1, e2, e3]
        have e4 : (x :: xs.filter (fun y => decide (minStk ≤ y.amount))).take (m + 1) =
            x :: (xs.filter (fun y => decide (minStk ≤ y.amount))).take m := rfl
        rw [e4, ih hxs m]
      · have hfail : ∀ y ∈ xs, ¬ (minStk ≤ y.amount) := by
          intro y hy
          have := hx y hy
          omega
        have h1 : xs.filter (fun y => decide (minStk ≤ y.amount)) = [] := by
          rw [List.filter_eq_nil_iff]
          intro y hy
          simp [hfail y hy]
        have h2 : (xs.take m).filter (fun y => decide (minStk ≤ y.amount)) = [] := by
          rw [List.filter_eq_nil_iff]
          intro y hy
          simp [hfail y (List.take_subset m xs hy)]
        have e2 : (x :: xs.take m).filter (fun y => decide (minStk ≤ y.amount)) =
            (xs.take m).filter (fun y => decide (minStk ≤ y.amount)) := by
          simp [List.filter_cons, hpx]
        have e3 : (x :: xs).filter (fun y => decide (minStk ≤ y.amount)) =
            xs.filter (fun y => decide (minStk ≤ y.amount)) := by
          simp [List.filter_cons, hpx]
        rw [e1, e2, e3, h1, h2]
        simp

instance : IsTrans Bond bondLexLt := by
  constructor
  intro a b c hab hbc
  unfold bondLexLt at *
  omega

theorem adjustBonds_spec (reqs : List (Nat × DelegationAction)) :
    ∀ l : List Bond, adjustBonds reqs l =
      ⟨(l.map (fun b => uncountedContribution (alookup reqs b.owner) b.amount)).sum,
        l.map (fun b => ⟨b.owner, adjustedAmount (alookup reqs b.owner) b.amount⟩)⟩ := by
  intro l
  induction l with
  | nil => rfl
  | cons b rest ih =>
    simp only [adjustBonds, ih, List.map_cons, List.sum_cons]
    cases h : alookup reqs b.owner with
    | none => simp [adjustedAmount, uncountedContribution, h]
    | some act =>
      cases act with
      | revoke amt => simp [adjustedAmount, uncountedContribution, h, Nat.add_comm]
      | decrease amt => simp [adjustedAmount, uncountedContribution, h, Nat.add_comm]

/-- C2: when snapshotting a selected collator, every top delegation with a
pending Revoke is recorded with amount 0 contributing its full amount to the
uncounted stake, a pending Decrease x is recorded as amount − x contributing
x, a delegation without a pending request keeps its amount, and the stored
snapshot total equals total_counted minus the uncounted stake. -/
theorem c2_snapshot_adjustments (s : GlobalState) (a : Nat) (info : CandidateMetadata) :
    (getRewardableDelegators (requestsFor s a)
        (topDelegationsFor s a).delegations).uncountedStake =
      ((topDelegationsFor s a).delegations.map (fun b =>
        uncountedContribution (alookup (requestMap (requestsFor s a)) b.owner)
          b.amount)).sum ∧
    (snapshotForCandidate s a info).delegations =
      (topDelegationsFor s a).delegations.map (fun b =>
        (⟨b.owner, adjustedAmount (alookup (requestMap (requestsFor s a)) b.owner) b.amount,
          (alookup (autoCompoundMapFor s a) b.owner).getD 0⟩ : BondWithAutoCompound)) ∧
    (snapshotForCandidate s a info).bond = info.bond ∧
    (snapshotForCandidate s a info).total =
      info.totalCounted -
        (getRewardableDelegators (requestsFor s a)
          (topDelegationsFor s a).delegations).uncountedStake := by
  refine ⟨?_, ?_, rfl, rfl⟩
  · rw [getRewardableDelegators, adjustBonds_spec]
  · show (getRewardableDelegators (requestsFor s a)
        (topDelegationsFor s a).delegations).rewardableDelegations.map _ = _
    rw [getRewardableDelegators, adjustBonds_spec]
    simp [List.map_map, Function.comp]

/-- C3 counterexample: on the validly ordered pool [(1,10), (2,10)] with
TotalSelected 1 and MinCollatorStk 5, the code selects owner 2 while the
claim's procedure (ascending-owner tie-break) selects owner 1. -/
theorem c3_selection_counterexample :
    List.Chain' bondLexLt [⟨1, 10⟩, ⟨2, 10⟩] ∧
    computeTopCandidates 5 1 [⟨1, 10⟩, ⟨2, 10⟩] ≠
      claimSelectedCandidates 5 1 [⟨1, 10⟩, ⟨2, 10⟩] := by
  constructor
  · simp [List.chain'_cons, bondLexLt]
  · decide

/-- C3 amended: on a pool stored in (amount asc, owner asc) order, the
selected collator set equals the claim's procedure with ties between equal
amounts broken by descending owner. -/
theorem c3_selection_amended (minStk topN : Nat) (pool : List Bond)
    (hsorted : List.Chain' bondLexLt pool) :
    computeTopCandidates minStk topN pool = amendedSelectedCandidates minStk topN pool := by
  have hpw : pool.Pairwise bondLexLt := List.chain'_iff_pairwise.mp hsorted
  have h1 : sortBy bondAmountLe pool = pool := by
    apply sortBy_eq_of_chain
    apply hsorted.imp
    intro a b hab
    unfold bondAmountLe
    unfold bondLexLt at hab
    simp only [decide_eq_true_eq]
    omega
  have h2 : sortBy bondAmendedLe pool = pool.reverse := by
    apply sortBy_eq_reverse_of_pairwise
    apply hpw.imp
    intro a b hab
    unfold bondAmendedLe
    unfold bondLexLt at hab
    simp only [Bool.or_eq_false_iff, Bool.and_eq_false_iff, decide_eq_false_iff_not]
    omega
  have hrevpw : pool.reverse.Pairwise (fun a b : Bond => b.amount ≤ a.amount) := by
    rw [List.pairwise_reverse]
    apply hpw.imp
    intro a b hab
    unfold bondLexLt at hab
    omega
  unfold computeTopCandidates amendedSelectedCandidates
  simp only [h1, h2]
  rw [filter_take_of_antitone minStk pool.reverse hrevpw topN]

/-- C3 amended witness at the counterexample pool. -/
theorem c3_selection_amended_witness :
    List.Chain' bondLexLt [⟨1, 10⟩, ⟨2, 10⟩] ∧
    computeTopCandidates 5 1 [⟨1, 10⟩, ⟨2, 10⟩] =
      amendedSelectedCandidates 5 1 [⟨1, 10⟩, ⟨2, 10⟩] :=
  ⟨by simp [List.chain'_cons, bondLexLt],
    c3_selection_amended 5 1 [⟨1, 10⟩, ⟨2, 10⟩] (by simp [List.chain'_cons, bondLexLt])⟩

theorem depositKeys (l : List (Nat × Nat)) (acct amt : Nat) (led : List (Nat × Nat))
    (h : depositIntoExisting l acct amt = some led) :
    ∀ a, (alookup led a).isSome = (alookup l a).isSome := by
  intro a
  unfold depositIntoExisting at h
  cases hl : alookup l acct with
  | none => rw [hl] at h; exact absurd h (by simp)
  | some bal =>
    rw [hl] at h
    simp only [Option.some.injEq] at h
    subst h
    rw [alookup_ainsert]
    by_cases ha : a = acct
    · subst ha; simp [hl]
    · simp [ha]

theorem deposit_of_has (s : GlobalState) (acct amt : Nat) (h : ledgerHas s acct = true) :
    ∃ led, depositIntoExisting s.ledger acct amt = some led := by
  unfold ledgerHas at h
  cases hl : alookup s.ledger acct with
  | none => rw [hl] at h; simp at h
  | some bal => exact ⟨ainsert s.ledger acct (bal + amt), by unfold depositIntoExisting; rw [hl]⟩

theorem deposit_none_of_not_has (s : GlobalState) (acct amt : Nat)
    (h : ledgerHas s acct = false) :
    depositIntoExisting s.ledger acct amt = none := by
  unfold ledgerHas at h
  cases hl : alookup s.ledger acct with
  | none => unfold depositIntoExisting; rw [hl]
  | some bal => rw [hl] at h; simp at h

theorem mint_spec (s : GlobalState) (amt acct : Nat) :
    (∀ a, ledgerHas (mint s amt acct) a = ledgerHas s a) ∧
    (mint s amt acct).events =
      s.events ++ (if ledgerHas s acct then [Event.rewarded acct amt] else []) ∧
    (ledgerHas s acct = false → mint s amt acct = s) := by
  cases hhas : ledgerHas s acct with
  | false =>
    have hd := deposit_none_of_not_has s acct amt hhas
    have hm : mint s amt acct = s := by unfold mint; rw [hd]
    rw [hm]
    exact ⟨fun a => rfl, by simp, fun _ => rfl⟩
  | true =>
    obtain ⟨led, hd⟩ := deposit_of_has s acct amt hhas
    have hm : mint s amt acct = emit { s with ledger := led } (.rewarded acct amt) := by
      unfold mint; rw [hd]
    rw [hm]
    refine ⟨?_, by simp [emit], fun hf => by simp at hf⟩
    intro a
    show (alookup led a).isSome = (alookup s.ledger a).isSome
    exact depositKeys s.ledger acct amt led hd a

theorem mint_mentions (s : GlobalState) (amt acct x : Nat) (hx : ledgerHas s x = false) :
    (mint s amt acct).events.filter (mentionsBeneficiary x) =
      s.events.filter (mentionsBeneficiary x) := by
  obtain ⟨_, hev, _⟩ := mint_spec s amt acct
  rw [hev, List.filter_append]
  cases hhas : ledgerHas s acct with
  | false => simp
  | true =>
    have hne : ¬ (acct = x) := by
      intro hh
      rw [hh, hx] at hhas
      exact Bool.false_ne_true hhas
    simp [mentionsBeneficiary, hne]

theorem bondMore_preserves (cfg : StakingConfig) (st : GlobalState) (d c m : Nat)
    (st2 : GlobalState) (fl : Bool)
    (h : delegationBondMoreWithoutEvent cfg st d c m = .ok (st2, fl)) :
    st2.events = st.events ∧ st2.ledger = st.ledger := by
  unfold delegationBondMoreWithoutEvent at h
  split at h
  · exact absurd h (by simp)
  · split at h
    · exact absurd h (by simp)
    · rename_i dd _
      unfold increaseDelegation at h
      simp only [] at h
      split at h
      · exact absurd h (by simp)
      · split at h
        · exact absurd h (by simp)
        · split at h
          · exact absurd h (by simp)
          · split at h
            · cases h
              exact ⟨rfl, rfl⟩
            · split at h
              · split at h
                · cases h
                  exact ⟨rfl, rfl⟩
                · split at h
                  · cases h
                    exact ⟨rfl, rfl⟩
                  · cases h
                    exact ⟨rfl, rfl⟩
              · exact absurd h (by simp)

theorem compoundStep_spec (cfg : StakingConfig) (s1 : GlobalState) (c d ca : Nat) :
    (compoundStep cfg s1 c d ca).ledger = s1.ledger ∧
    ∃ E2, (compoundStep cfg s1 c d ca).events = s1.events ++ E2 ∧
      (E2 = [] ∨ E2 = [Event.compounded c d ca]) := by
  unfold compoundStep
  cases hb : delegationBondMoreWithoutEvent cfg s1 d c ca with
  | error e => exact ⟨rfl, [], by simp, Or.inl rfl⟩
  | ok pr =>
    obtain ⟨s2, fl⟩ := pr
    obtain ⟨hev, hled⟩ := bondMore_preserves cfg s1 d c ca s2 fl hb
    refine ⟨hled, [Event.compounded c d ca], ?_, Or.inr rfl⟩
    show s2.events ++ [Event.compounded c d ca] = s1.events ++ [Event.compounded c d ca]
    rw [hev]

theorem mintAndCompound_spec (cfg : StakingConfig) (s : GlobalState) (amt cp c d : Nat) :
    (∀ a, ledgerHas (mintAndCompound cfg s amt cp c d) a = ledgerHas s a) ∧
    ∃ E, (mintAndCompound cfg s amt cp c d).events = s.events ++ E ∧
      E.filter isRewardedEvent =
        (if ledgerHas s d then [Event.rewarded d amt] else []) ∧
      (∀ x, ledgerHas s x = false → E.filter (mentionsBeneficiary x) = []) := by
  cases hhas : ledgerHas s d with
  | false =>
    have hd := deposit_none_of_not_has s d amt hhas
    have hm : mintAndCompound cfg s amt cp c d = s := by unfold mintAndCompound; rw [hd]
    rw [hm]
    exact ⟨fun a => rfl, [], by simp, by simp, fun x _ => rfl⟩
  | true =>
    obtain ⟨led, hd⟩ := deposit_of_has s d amt hhas
    have hkeys := depositKeys s.ledger d amt led hd
    have hm : mintAndCompound cfg s amt cp c d =
        (if percentMulCeil cp amt = 0 then
          emit { s with ledger := led } (.rewarded d amt)
        else compoundStep cfg (emit { s with ledger := led } (.rewarded d amt)) c d
          (percentMulCeil cp amt)) := by
      unfold mintAndCompound; rw [hd]
    have hxne : ∀ x, ledgerHas s x = false → ¬ (d = x) := by
      intro x hx hh
      rw [hh, hx] at hhas
      simp at hhas
    by_cases hca : percentMulCeil cp amt = 0
    · rw [hm, if_pos hca]
      refine ⟨?_, [Event.rewarded d amt], by simp [emit], by simp [hhas, isRewardedEvent], ?_⟩
      · intro a
        show (alookup led a).isSome = (alookup s.ledger a).isSome
        exact hkeys a
      · intro x hx
        simp [mentionsBeneficiary, hxne x hx]
    · rw [hm, if_neg hca]
      obtain ⟨hled2, E2, hev2, hE2⟩ :=
        compoundStep_spec cfg (emit { s with ledger := led } (.rewarded d amt)) c d
          (percentMulCeil cp amt)
      refine ⟨?_, Event.rewarded d amt :: E2, ?_, ?_, ?_⟩
      · intro a
        show (alookup (compoundStep cfg (emit { s with ledger := led }
          (.rewarded d amt)) c d (percentMulCeil cp amt)).ledger a).isSome = _
        rw [hled2]
        exact hkeys a
      · rw [hev2]
        simp [emit]
      · cases hE2 with
        | inl h0 => subst h0; simp [hhas, isRewardedEvent]
        | inr h1 => subst h1; simp [hhas, isRewardedEvent]
      · intro x hx
        cases hE2 with
        | inl h0 => subst h0; simp [mentionsBeneficiary, hxne x hx]
        | inr h1 => subst h1; simp [mentionsBeneficiary, hxne x hx]

theorem filterMapCongr {α β : Type} (f g : α → Option β) :
    ∀ l : List α, (∀ a ∈ l, f a = g a) → l.filterMap f = l.filterMap g := by
  intro l
  induction l with
  | nil => intro _; rfl
  | cons x xs ih =>
    intro h
    rw [List.filterMap_cons, List.filterMap_cons, h x (List.mem_cons_self x xs),
      ih (fun a ha => h a (List.mem_cons_of_mem x ha))]

theorem payDelegations_spec (cfg : StakingConfig) (collator snapTotal amtDue : Nat) :
    ∀ (l : List BondWithAutoCompound) (st : GlobalState),
      (∀ a, ledgerHas (payDelegations cfg collator snapTotal amtDue l st) a = ledgerHas st a) ∧
      ∃ E, (payDelegations cfg collator snapTotal amtDue l st).events = st.events ++ E ∧
        E.filter isRewardedEvent = l.filterMap (fun b =>
          if perbillMul (perbillFromRational b.amount snapTotal) amtDue = 0 then none
          else if ledgerHas st b.owner then
            some (Event.rewarded b.owner
              (perbillMul (perbillFromRational b.amount snapTotal) amtDue))
          else none) ∧
        (∀ x, ledgerHas st x = false → E.filter (mentionsBeneficiary x) = []) := by
  intro l
  induction l with
  | nil =>
    intro st
    exact ⟨fun a => rfl, [], by simp [payDelegations], by simp [payDelegations], fun x _ => rfl⟩
  | cons b rest ih =>
    intro st
    by_cases hdue : perbillMul (perbillFromRational b.amount snapTotal) amtDue = 0
    · have hstep : payDelegations cfg collator snapTotal amtDue (b :: rest) st =
          payDelegations cfg collator snapTotal amtDue rest st := by
        simp [payDelegations, hdue]
      obtain ⟨hk, E, hev, hfil, hmen⟩ := ih st
      rw [hstep]
      refine ⟨hk, E, hev, ?_, hmen⟩
      rw [hfil, List.filterMap_cons]
      simp [hdue]
    · have hstep : payDelegations cfg collator snapTotal amtDue (b :: rest) st =
          payDelegations cfg collator snapTotal amtDue rest
            (mintAndCompound cfg st
              (perbillMul (perbillFromRational b.amount snapTotal) amtDue)
              b.autoCompound collator b.owner) := by
        simp [payDelegations, hdue]
      obtain ⟨hk1, E1, hev1, hfil1, hmen1⟩ := mintAndCompound_spec cfg st
        (perbillMul (perbillFromRational b.amount snapTotal) amtDue)
        b.autoCompound collator b.owner
      obtain ⟨hk2, E2, hev2, hfil2, hmen2⟩ := ih (mintAndCompound cfg st
        (perbillMul (perbillFromRational b.amount snapTotal) amtDue)
        b.autoCompound collator b.owner)
      rw [hstep]
      refine ⟨fun a => (hk2 a).trans (hk1 a), E1 ++ E2, ?_, ?_, ?_⟩
      · rw [hev2, hev1, List.append_assoc]
      · rw [List.filter_append, hfil1, hfil2, List.filterMap_cons]
        have hcongr : rest.filterMap (fun bb =>
            if perbillMul (perbillFromRational bb.amount snapTotal) amtDue = 0 then none
            else if ledgerHas (mintAndCompound cfg st
                (perbillMul (perbillFromRational b.amount snapTotal) amtDue)
                b.autoCompound collator b.owner) bb.owner then
              some (Event.rewarded bb.owner
                (perbillMul (perbillFromRational bb.amount snapTotal) amtDue))
            else none) = rest.filterMap (fun bb =>
            if perbillMul (perbillFromRational bb.amount snapTotal) amtDue = 0 then none
            else if ledgerHas st bb.owner then
              some (Event.rewarded bb.owner
                (perbillMul (perbillFromRational bb.amount snapTotal) amtDue))
            else none) := by
          apply filterMapCongr
          intro bb _
          rw [hk1 bb.owner]
        rw [hcongr]
        simp only [hdue, if_neg hdue]
        cases hbo : ledgerHas st b.owner <;> simp
      · intro x hx
        rw [List.filter_append, hmen1 x hx, hmen2 x (by rw [hk1 x]; exact hx)]
        rfl

theorem payOne_reduce (cfg : StakingConfig) (r : Nat) (info : DelayedPayout) (s : GlobalState)
    (c p Ptot : Nat) (snap : CollatorSnapshot)
    (hPts : alookup s.points r = some Ptot) (hPos : 0 < Ptot)
    (hFirst : awardedFirst s r = some (c, p))
    (hSnap : alookup s.atStake (r, c) = some snap) :
    payOneCollatorReward cfg r info s =
      (if snap.delegations.isEmpty then
        (some (c, claimTotalPaid p Ptot info.totalStakingReward),
          mint (drainState s r c) (claimTotalPaid p Ptot info.totalStakingReward) c)
      else
        (some (c, claimTotalPaid p Ptot info.totalStakingReward),
          payDelegations cfg c snap.total
            (claimTotalPaid p Ptot info.totalStakingReward -
              claimCommission p Ptot info.collatorCommission info.roundIssuance)
            snap.delegations
            (mint (drainState s r c) (claimCollatorReward p Ptot info snap) c))) := by
  have hne : ¬ (Ptot = 0) := Nat.pos_iff_ne_zero.mp hPos
  unfold payOneCollatorReward
  simp only []
  rw [hPts]
  simp only [Option.getD_some]
  rw [if_neg hne, hFirst]
  simp only []
  rw [hSnap]
  simp only [Option.getD_some]
  rfl

/-- C1: in a payout drip of a matured round with total points `Ptot` and
payout info `{I, R, kappa}`, the drained collator `c` holding `p` points is
paid according to `share = p / Ptot`, `total_paid = share * R` and
`commission = share * kappa * I`: a collator without snapshot delegations is
minted `total_paid`; otherwise the collator is minted
`commission + (snap.bond / snap.total) * (total_paid - commission)` and each
snapshot delegation `(d, A)` is minted
`(A / snap.total) * (total_paid - commission)`, every ratio being a Perbill
multiplication truncating toward zero (a zero amount is simply not minted). -/
theorem c1_payout_amounts (cfg : StakingConfig) (s : GlobalState) (r c p Ptot : Nat)
    (info : DelayedPayout) (snap : CollatorSnapshot)
    (hPts : alookup s.points r = some Ptot) (hPos : 0 < Ptot)
    (hFirst : awardedFirst s r = some (c, p))
    (hSnap : alookup s.atStake (r, c) = some snap)
    (hLc : ledgerHas s c = true)
    (hLd : ∀ b ∈ snap.delegations, ledgerHas s b.owner = true) :
    (payOneCollatorReward cfg r info s).1 =
      some (c, claimTotalPaid p Ptot info.totalStakingReward) ∧
    (payOneCollatorReward cfg r info s).2.events.filter isRewardedEvent =
      s.events.filter isRewardedEvent ++
      (if snap.delegations.isEmpty then
        [Event.rewarded c (claimTotalPaid p Ptot info.totalStakingReward)]
      else
        Event.rewarded c (claimCollatorReward p Ptot info snap) ::
        snap.delegations.filterMap (fun b =>
          if claimDelegatorDue p Ptot info snap b.amount = 0 then none
          else some (Event.rewarded b.owner
            (claimDelegatorDue p Ptot info snap b.amount)))) := by
  rw [payOne_reduce cfg r info s c p Ptot snap hPts hPos hFirst hSnap]
  by_cases hemp : snap.delegations.isEmpty
  · rw [if_pos hemp, if_pos hemp]
    obtain ⟨hmk, hmev, _⟩ := mint_spec (drainState s r c)
      (claimTotalPaid p Ptot info.totalStakingReward) c
    refine ⟨rfl, ?_⟩
    show (mint _ _ c).events.filter isRewardedEvent = _
    rw [hmev]
    have hc2 : ledgerHas (drainState s r c) c = true := hLc
    rw [hc2, if_pos rfl]
    show (s.events ++ _).filter isRewardedEvent = _
    rw [List.filter_append]
    rfl
  · rw [if_neg hemp, if_neg hemp]
    obtain ⟨hmk, hmev, _⟩ := mint_spec (drainState s r c)
      (claimCollatorReward p Ptot info snap) c
    obtain ⟨hk, E, hev, hfil, _⟩ := payDelegations_spec cfg c snap.total
      (claimTotalPaid p Ptot info.totalStakingReward -
        claimCommission p Ptot info.collatorCommission info.roundIssuance)
      snap.delegations
      (mint (drainState s r c) (claimCollatorReward p Ptot info snap) c)
    refine ⟨rfl, ?_⟩
    show (payDelegations _ _ _ _ _ _).events.filter isRewardedEvent = _
    rw [hev, List.filter_append, hmev]
    have hc2 : ledgerHas (drainState s r c) c = true := hLc
    rw [hc2, if_pos rfl]
    show ((s.events ++ _).filter isRewardedEvent) ++ _ = _
    rw [List.filter_append, hfil]
    have hcongr : snap.delegations.filterMap (fun b =>
        if perbillMul (perbillFromRational b.amount snap.total)
            (claimTotalPaid p Ptot info.totalStakingReward -
              claimCommission p Ptot info.collatorCommission info.roundIssuance) = 0 then none
        else if ledgerHas (mint (drainState s r c)
            (claimCollatorReward p Ptot info snap) c) b.owner then
          some (Event.rewarded b.owner
            (perbillMul (perbillFromRational b.amount snap.total)
              (claimTotalPaid p Ptot info.totalStakingReward -
                claimCommission p Ptot info.collatorCommission info.roundIssuance)))
        else none) =
        snap.delegations.filterMap (fun b =>
          if claimDelegatorDue p Ptot info snap b.amount = 0 then none
          else some (Event.rewarded b.owner
            (claimDelegatorDue p Ptot info snap b.amount))) := by
      apply filterMapCongr
      intro b hb
      have hbo : ledgerHas (mint (drainState s r c)
          (claimCollatorReward p Ptot info snap) c) b.owner = true := by
        rw [hmk b.owner]
        exact hLd b hb
      rw [hbo]
      rfl
    rw [hcongr]
    simp [List.append_assoc, isRewardedEvent]

/-- C1 witness: in the concrete payout state the collator is paid 320 in
total, minted 239, and the sole delegator is minted 79. -/
theorem c1_payout_amounts_witness :
    (payOneCollatorReward cfgEx 1 payoutInfoEx payoutStateEx).1 = some (7, 320) ∧
    (payOneCollatorReward cfgEx 1 payoutInfoEx payoutStateEx).2.events.filter
      isRewardedEvent = [Event.rewarded 7 239, Event.rewarded 30 79] := by
  have h := c1_payout_amounts cfgEx payoutStateEx 1 7 40 100 payoutInfoEx
    ⟨20, [⟨30, 10, 0⟩], 30⟩ (by decide) (by decide) (by decide) (by decide) (by decide)
    (by decide)
  constructor
  · rw [h.1]
    decide
  · rw [h.2]
    decide

/-- C8: when paying a snapshot delegation with positive compound percent to an
existing delegator, after minting the due amount the engine attempts a
bond-more of `mul_ceil(percent, due)`; if that bond-more fails the failure is
skipped and the minted state is kept, and if it succeeds only the `Compounded`
event is added on top of the bond-more result. -/
theorem c8_compound_failure_kept (cfg : StakingConfig) (s : GlobalState)
    (amt cp candidate delegator : Nat)
    (hHas : ledgerHas s delegator = true) (hcp : 0 < cp) (hamt : 0 < amt) :
    0 < percentMulCeil cp amt ∧
    (∀ e, delegationBondMoreWithoutEvent cfg (mint s amt delegator) delegator candidate
        (percentMulCeil cp amt) = .error e →
      mintAndCompound cfg s amt cp candidate delegator = mint s amt delegator) ∧
    (∀ s2 fl, delegationBondMoreWithoutEvent cfg (mint s amt delegator) delegator candidate
        (percentMulCeil cp amt) = .ok (s2, fl) →
      mintAndCompound cfg s amt cp candidate delegator =
        emit s2 (.compounded candidate delegator (percentMulCeil cp amt))) := by
  have hca : 0 < percentMulCeil cp amt := by
    unfold percentMulCeil
    have hmul : 0 < cp * amt := Nat.mul_pos hcp hamt
    have h100 : 100 ≤ cp * amt + 99 := by omega
    exact Nat.div_pos h100 (by norm_num)
  have hne : ¬ (percentMulCeil cp amt = 0) := Nat.pos_iff_ne_zero.mp hca
  obtain ⟨led, hled⟩ := deposit_of_has s delegator amt hHas
  have hmint : mint s amt delegator = emit { s with ledger := led } (.rewarded delegator amt) := by
    unfold mint; rw [hled]
  have hmc : mintAndCompound cfg s amt cp candidate delegator =
      compoundStep cfg (emit { s with ledger := led } (.rewarded delegator amt))
        candidate delegator (percentMulCeil cp amt) := by
    unfold mintAndCompound
    rw [hled]
    simp only []
    rw [if_neg hne]
  refine ⟨hca, ?_, ?_⟩
  · intro e he
    rw [hmint] at he
    rw [hmc]
    unfold compoundStep
    rw [he]
    exact hmint.symm
  · intro s2 fl hok
    rw [hmint] at hok
    rw [hmc]
    unfold compoundStep
    rw [hok]

/-- C8 witness: in the concrete state (pending revoke toward candidate 2) the
compound bond-more fails and the minted state is kept unchanged. -/
theorem c8_compound_failure_kept_witness :
    (mintAndCompound cfgEx compoundStateEx 8 50 2 5 = mint compoundStateEx 8 5) ∧
    (mintAndCompound cfgEx compoundStateEx 8 50 2 5).events = [Event.rewarded 5 8] := by
  have h := c8_compound_failure_kept cfgEx compoundStateEx 8 50 2 5 (by decide)
    (by decide) (by decide)
  have herr : delegationBondMoreWithoutEvent cfgEx (mint compoundStateEx 8 5) 5 2
      (percentMulCeil 50 8) = .error .pendingDelegationRevoke := by rfl
  have heq := h.2.1 StakingError.pendingDelegationRevoke herr
  refine ⟨heq, ?_⟩
  rw [heq]
  decide

/-- C10: a failed `deposit_into_existing` while minting silently drops the
reward: `mint` and `mint_and_compound` leave the state unchanged for a dead
beneficiary (no event, no compounding), the drip still reports a successful
payout to its caller, and the remaining beneficiaries of the snapshot are
still paid. -/
theorem c10_failed_mint_dropped (cfg : StakingConfig) (s : GlobalState) (r c p Ptot : Nat)
    (info : DelayedPayout) (snap : CollatorSnapshot)
    (hPts : alookup s.points r = some Ptot) (hPos : 0 < Ptot)
    (hFirst : awardedFirst s r = some (c, p))
    (hSnap : alookup s.atStake (r, c) = some snap) :
    (∀ x amtx, ledgerHas s x = false → mint s amtx x = s) ∧
    (∀ x amtx cpx candx, ledgerHas s x = false →
      mintAndCompound cfg s amtx cpx candx x = s) ∧
    (payOneCollatorReward cfg r info s).1 =
      some (c, claimTotalPaid p Ptot info.totalStakingReward) ∧
    (∀ x, ledgerHas s x = false →
      (payOneCollatorReward cfg r info s).2.events.filter (mentionsBeneficiary x) =
        s.events.filter (mentionsBeneficiary x)) ∧
    (payOneCollatorReward cfg r info s).2.events.filter isRewardedEvent =
      s.events.filter isRewardedEvent ++
      (if snap.delegations.isEmpty then
        (if ledgerHas s c then
          [Event.rewarded c (claimTotalPaid p Ptot info.totalStakingReward)] else [])
      else
        (if ledgerHas s c then
          [Event.rewarded c (claimCollatorReward p Ptot info snap)] else []) ++
        snap.delegations.filterMap (fun b =>
          if claimDelegatorDue p Ptot info snap b.amount = 0 then none
          else if ledgerHas s b.owner then
            some (Event.rewarded b.owner (claimDelegatorDue p Ptot info snap b.amount))
          else none)) := by
  have hs2eq : ∀ a, ledgerHas (drainState s r c) a = ledgerHas s a := fun a => rfl
  refine ⟨?_, ?_, ?_, ?_, ?_⟩
  · intro x amtx hx
    exact (mint_spec s amtx x).2.2 hx
  · intro x amtx cpx candx hx
    have hd := deposit_none_of_not_has s x amtx hx
    unfold mintAndCompound
    rw [hd]
  · rw [payOne_reduce cfg r info s c p Ptot snap hPts hPos hFirst hSnap]
    by_cases hemp : snap.delegations.isEmpty
    · rw [if_pos hemp]
    · rw [if_neg hemp]
  · intro x hx
    rw [payOne_reduce cfg r info s c p Ptot snap hPts hPos hFirst hSnap]
    by_cases hemp : snap.delegations.isEmpty
    · rw [if_pos hemp]
      show (mint _ _ c).events.filter (mentionsBeneficiary x) = _
      rw [mint_mentions _ _ _ x (by rw [hs2eq x]; exact hx)]
      rfl
    · rw [if_neg hemp]
      obtain ⟨hmk, _, _⟩ := mint_spec (drainState s r c)
        (claimCollatorReward p Ptot info snap) c
      obtain ⟨hk, E, hev, _, hmen⟩ := payDelegations_spec cfg c snap.total
        (claimTotalPaid p Ptot info.totalStakingReward -
          claimCommission p Ptot info.collatorCommission info.roundIssuance)
        snap.delegations
        (mint (drainState s r c) (claimCollatorReward p Ptot info snap) c)
      show (payDelegations _ _ _ _ _ _).events.filter (mentionsBeneficiary x) = _
      rw [hev, List.filter_append]
      rw [hmen x (by rw [hmk x, hs2eq x]; exact hx)]
      rw [mint_mentions _ _ _ x (by rw [hs2eq x]; exact hx)]
      have hdev : (drainState s r c).events = s.events := rfl
      rw [hdev]
      simp
  · rw [payOne_reduce cfg r info s c p Ptot snap hPts hPos hFirst hSnap]
    by_cases hemp : snap.delegations.isEmpty
    · rw [if_pos hemp, if_pos hemp]
      obtain ⟨_, hmev, _⟩ := mint_spec (drainState s r c)
        (claimTotalPaid p Ptot info.totalStakingReward) c
      show (mint _ _ c).events.filter isRewardedEvent = _
      rw [hmev, List.filter_append]
      rw [hs2eq c]
      have hdev : (drainState s r c).events = s.events := rfl
      rw [hdev]
      cases hc : ledgerHas s c <;> simp [isRewardedEvent]
    · rw [if_neg hemp, if_neg hemp]
      obtain ⟨hmk, hmev, _⟩ := mint_spec (drainState s r c)
        (claimCollatorReward p Ptot info snap) c
      obtain ⟨hk, E, hev, hfil, _⟩ := payDelegations_spec cfg c snap.total
        (claimTotalPaid p Ptot info.totalStakingReward -
          claimCommission p Ptot info.collatorCommission info.roundIssuance)
        snap.delegations
        (mint (drainState s r c) (claimCollatorReward p Ptot info snap) c)
      show (payDelegations _ _ _ _ _ _).events.filter isRewardedEvent = _
      rw [hev, List.filter_append, hmev, List.filter_append, hfil]
      rw [hs2eq c]
      have hcongr : snap.delegations.filterMap (fun b =>
          if perbillMul (perbillFromRational b.amount snap.total)
              (claimTotalPaid p Ptot info.totalStakingReward -
                claimCommission p Ptot info.collatorCommission info.roundIssuance) = 0 then
            none
          else if ledgerHas (mint (drainState s r c)
              (claimCollatorReward p Ptot info snap) c) b.owner then
            some (Event.rewarded b.owner
              (perbillMul (perbillFromRational b.amount snap.total)
                (claimTotalPaid p Ptot info.totalStakingReward -
                  claimCommission p Ptot info.collatorCommission info.roundIssuance)))
          else none) =
          snap.delegations.filterMap (fun b =>
            if claimDelegatorDue p Ptot info snap b.amount = 0 then none
            else if ledgerHas s b.owner then
              some (Event.rewarded b.owner (claimDelegatorDue p Ptot info snap b.amount))
            else none) := by
        apply filterMapCongr
        intro b _
        rw [hmk b.owner, hs2eq b.owner]
        rfl
      rw [hcongr]
      have hdev : (drainState s r c).events = s.events := rfl
      rw [hdev]
      cases hc : ledgerHas s c <;> simp [isRewardedEvent, List.append_assoc]

/-- C10 witness: delegator 30 does not exist in the ledger, its reward is
silently dropped, the drip reports success, and delegator 31 is still paid. -/
theorem c10_failed_mint_dropped_witness :
    (payOneCollatorReward cfgEx 1 payoutInfoEx payoutDropStateEx).1 = some (7, 320) ∧
    (payOneCollatorReward cfgEx 1 payoutInfoEx payoutDropStateEx).2.events.filter
      (mentionsBeneficiary 30) = [] ∧
    (payOneCollatorReward cfgEx 1 payoutInfoEx payoutDropStateEx).2.events.filter
      isRewardedEvent = [Event.rewarded 7 200, Event.rewarded 31 60] := by
  have h := c10_failed_mint_dropped cfgEx payoutDropStateEx 1 7 40 100 payoutInfoEx
    ⟨20, [⟨30, 10, 0⟩, ⟨31, 10, 0⟩], 40⟩ (by decide) (by decide) (by decide) (by decide)
  refine ⟨?_, ?_, ?_⟩
  · rw [h.2.2.1]
    decide
  · rw [h.2.2.2.1 30 (by decide)]
    rfl
  · rw [h.2.2.2.2]
    decide

theorem foldl_emit_events (f : Nat → Event) :
    ∀ (lst : List Nat) (st : GlobalState),
      lst.foldl (fun st c => emit st (f c)) st =
        { st with events := st.events ++ lst.map f } := by
  intro lst
  induction lst with
  | nil =>
    intro st
    show st = { st with events := st.events ++ [] }
    rw [List.append_nil]
  | cons c rest ih =>
    intro st
    show rest.foldl _ (emit st (f c)) = _
    rw [ih (emit st (f c))]
    show { st with events := (st.events ++ [f c]) ++ rest.map f } = _
    rw [List.append_assoc]
    rfl

theorem foldl_atStake_inserts (now : Nat) :
    ∀ (prev : List (Nat × CollatorSnapshot)) (st : GlobalState),
      prev.foldl (fun st e => { st with atStake := ainsert st.atStake (now, e.1) e.2 }) st =
        { st with atStake := prev.foldl (fun m e => ainsert m (now, e.1) e.2) st.atStake } := by
  intro prev
  induction prev with
  | nil => intro st; rfl
  | cons e rest ih =>
    intro st
    show rest.foldl _ ({ st with atStake := ainsert st.atStake (now, e.1) e.2 }) = _
    rw [ih ({ st with atStake := ainsert st.atStake (now, e.1) e.2 })]
    rfl

theorem lookup_round_none (r : Nat) :
    ∀ l : List ((Nat × Nat) × CollatorSnapshot),
      l.filterMap (fun e => if e.1.1 = r then some (e.1.2, e.2) else none) = [] →
      ∀ a, alookup l (r, a) = none := by
  intro l
  induction l with
  | nil => intro _ a; rfl
  | cons e rest ih =>
    intro h a
    rw [List.filterMap_cons] at h
    by_cases he : e.1.1 = r
    · rw [if_pos he] at h
      exact absurd h (by simp)
    · rw [if_neg he] at h
      have hne : ¬ (e.1 = (r, a)) := by
        intro hh
        exact he (by rw [hh])
      show (if e.1 = (r, a) then some e.2 else alookup rest (r, a)) = none
      rw [if_neg hne]
      exact ih h a

theorem fallbackTotals_lookup (prev : List (Nat × CollatorSnapshot))
    (hnd : (prev.map Prod.fst).Nodup) :
    ∀ c, alookup (fallbackTotals prev) c = (alookup prev c).map CollatorSnapshot.total := by
  intro c
  have h := alookup_foldl_ainsert (fun x : Nat => x) (fun e => e.2.total)
    (fun _ _ hh => hh) prev [] c hnd
  cases hc : alookup prev c with
  | none =>
    rw [hc] at h
    exact h.trans rfl
  | some v =>
    rw [hc] at h
    exact h.trans rfl

theorem atStakeFold_lookup (now : Nat) (prev : List (Nat × CollatorSnapshot))
    (base : List ((Nat × Nat) × CollatorSnapshot))
    (hnd : (prev.map Prod.fst).Nodup)
    (hbase : ∀ a, alookup base (now, a) = none) :
    ∀ a, alookup (prev.foldl (fun m e => ainsert m (now, e.1) e.2) base) (now, a) =
      alookup prev a := by
  intro a
  have h := alookup_foldl_ainsert (fun x : Nat => ((now, x) : Nat × Nat)) (fun e => e.2)
    (fun x y hh => by injection hh with h1 h2) prev base a hnd
  cases hc : alookup prev a with
  | none =>
    rw [hc] at h
    exact h.trans (hbase a)
  | some v =>
    rw [hc] at h
    exact h.trans rfl

/-- C5: when selection yields zero collators at a round boundary, the previous
round's at-stake snapshots are copied forward to the new round,
`SelectedCandidates` stays unchanged, one `CollatorChosen` event is emitted
per kept selected entry (carrying its snapshot total), and the fallback hands
back an empty collator list. -/
theorem c5_fallback_selection (cfg : StakingConfig) (now : Nat) (s : GlobalState)
    (hEmpty : computeTopCandidates cfg.minCollatorStk s.totalSelected s.candidatePool = [])
    (hNoNow : atStakeEntriesFor s now = [])
    (hNodup : ((atStakeEntriesFor s (now - 1)).map Prod.fst).Nodup) :
    (selectTopCandidates cfg now s).2.selectedCandidates = s.selectedCandidates ∧
    (∀ a, alookup (selectTopCandidates cfg now s).2.atStake (now, a) =
      alookup (atStakeEntriesFor s (now - 1)) a) ∧
    (selectTopCandidates cfg now s).2.events =
      s.events ++ s.selectedCandidates.map (fun c =>
        Event.collatorChosen now c
          (((alookup (atStakeEntriesFor s (now - 1)) c).map CollatorSnapshot.total).getD 0)) ∧
    (selectTopCandidates cfg now s).1.collators = [] := by
  have hbase : ∀ a, alookup s.atStake (now, a) = none :=
    lookup_round_none now s.atStake hNoNow
  unfold selectTopCandidates
  rw [hEmpty]
  simp only []
  rw [if_pos List.isEmpty_nil]
  rw [foldl_atStake_inserts now (atStakeEntriesFor s (now - 1)) s]
  rw [foldl_emit_events (fun c =>
    Event.collatorChosen now c
      ((alookup (fallbackTotals (atStakeEntriesFor s (now - 1))) c).getD 0))
    s.selectedCandidates]
  refine ⟨rfl, ?_, ?_, rfl⟩
  · intro a
    exact atStakeFold_lookup now (atStakeEntriesFor s (now - 1)) s.atStake hNodup hbase a
  · show s.events ++ _ = s.events ++ _
    simp only [fallbackTotals_lookup (atStakeEntriesFor s (now - 1)) hNodup]

/-- C5 witness at the concrete fallback state. -/
theorem c5_fallback_selection_witness :
    (selectTopCandidates cfgEx 2 fallbackStateEx).2.selectedCandidates = [1] ∧
    alookup (selectTopCandidates cfgEx 2 fallbackStateEx).2.atStake (2, 1) =
      alookup (atStakeEntriesFor fallbackStateEx 1) 1 ∧
    (selectTopCandidates cfgEx 2 fallbackStateEx).2.events =
      [Event.collatorChosen 2 1 50] ∧
    (selectTopCandidates cfgEx 2 fallbackStateEx).1.collators = [] := by
  have h := c5_fallback_selection cfgEx 2 fallbackStateEx (by decide) (by decide) (by decide)
  refine ⟨?_, ?_, ?_, h.2.2.2⟩
  · rw [h.1]
    rfl
  · exact h.2.1 1
  · rw [h.2.2.1]
    decide

/-- C6 (code bug exhibit): with an empty candidate pool (selection yields
zero collators) and previous selection `[1]`, `new_session` keeps the stored
`SelectedCandidates` but hands the session driver `Some []` — an empty
collator set — rather than `None` or the previous set. -/
theorem c6_new_session_empty_fallback :
    (newSession cfgEx 10 fallbackStateEx).1 = some [] ∧
    fallbackStateEx.selectedCandidates = [1] ∧
    (newSession cfgEx 10 fallbackStateEx).2.selectedCandidates = [1] := by
  decide

/-- C4 (code bug exhibit): executing the leave of candidate 1 removes
delegator 10's delegation of 5 and re-inserts the delegator with total 7, but
leaves the DELEGATOR lock at the stale value 12, violating
`Lock(DELEGATOR, d) = d.total`. -/
theorem c4_delegator_lock_stale :
    (executeLeaveCandidates leaveStateEx 1 1).toOption.isSome = true ∧
    (alookup ((executeLeaveCandidates leaveStateEx 1 1).toOption.getD
      leaveStateEx).delegatorState 10).map Delegator.total = some 7 ∧
    alookup ((executeLeaveCandidates leaveStateEx 1 1).toOption.getD
      leaveStateEx).delegatorLocks 10 = some 12 ∧
    (7 : Nat) ≠ 12 := by
  decide

/-- C7 counterexample: a call by an existing candidate with a hint below the
pool size fails with `CandidateExists`, not with the hint error the claim
names for every such call. -/
theorem c7_join_hint_counterexample :
    0 < joinStateEx.candidatePool.length ∧
    joinCandidates cfgEx joinStateEx 1 20 0 =
      Except.error StakingError.candidateExists ∧
    joinCandidates cfgEx joinStateEx 1 20 0 ≠
      Except.error StakingError.tooLowCandidateCountWeightHintJoinCandidates := by
  refine ⟨by decide, by rfl, ?_⟩
  intro h
  rw [show joinCandidates cfgEx joinStateEx 1 20 0 =
    Except.error StakingError.candidateExists from rfl] at h
  exact absurd h (by simp)

/-- C7 amended: when the caller is neither candidate nor delegator and its
bond meets `MinCandidateStk`, a count hint below the pool size fails with
`TooLowCandidateCountWeightHintJoinCandidates` and commits no state change. -/
theorem c7_join_hint_amended (cfg : StakingConfig) (s : GlobalState)
    (acc bond candidateCount : Nat)
    (hNC : isCandidate s acc = false) (hND : isDelegator s acc = false)
    (hB : cfg.minCandidateStk ≤ bond)
    (hHint : candidateCount < s.candidatePool.length) :
    joinCandidates cfg s acc bond candidateCount =
      Except.error StakingError.tooLowCandidateCountWeightHintJoinCandidates ∧
    applyOp cfg s (.joinCandidates acc bond candidateCount) = s := by
  have h1 : joinCandidates cfg s acc bond candidateCount =
      Except.error StakingError.tooLowCandidateCountWeightHintJoinCandidates := by
    unfold joinCandidates
    rw [hNC, hND]
    rw [if_neg (show ¬ (false = true) by simp), if_neg (show ¬ (false = true) by simp),
      if_neg (Nat.not_lt.mpr hB), if_pos hHint]
  refine ⟨h1, ?_⟩
  unfold applyOp
  simp only []
  rw [h1]

/-- C7 amended witness: account 2 (neither candidate nor delegator, bond 15)
with hint 0 against a pool of size 1 hits the hint error and leaves the state
untouched. -/
theorem c7_join_hint_amended_witness :
    joinCandidates cfgEx joinStateEx 2 15 0 =
      Except.error StakingError.tooLowCandidateCountWeightHintJoinCandidates ∧
    applyOp cfgEx joinStateEx (.joinCandidates 2 15 0) = joinStateEx :=
  c7_join_hint_amended cfgEx joinStateEx 2 15 0 (by decide) (by decide) (by decide)
    (by decide)

/-- C9: the engine is a deterministic function of its ordered inputs — two
replays of equal operation sequences from equal genesis states produce the
identical final state and the identical event stream. -/
theorem c9_replay_deterministic (cfg : StakingConfig) (g1 g2 : GlobalState)
    (ops1 ops2 : List Op) (hg : g1 = g2) (hops : ops1 = ops2) :
    replay cfg g1 ops1 = replay cfg g2 ops2 ∧
    (replay cfg g1 ops1).events = (replay cfg g2 ops2).events := by
  subst hg
  subst hops
  exact ⟨rfl, rfl⟩

/-- C9 witness at a concrete genesis and operation sequence. -/
theorem c9_replay_deterministic_witness :
    replay cfgEx emptyState replayOpsEx = replay cfgEx emptyState replayOpsEx ∧
    (replay cfgEx emptyState replayOpsEx).events =
      (replay cfgEx emptyState replayOpsEx).events :=
  c9_replay_deterministic cfgEx emptyState emptyState replayOpsEx replayOpsEx rfl rfl

end ParachainStaking
